import Mathlib

/-!
Verification development for the crime-data ingestion repository.

The repository has three code paths relevant to the specification's core:
* `API-Chicago-request.py` — the REST ingestion loop (`fetch_and_save_all`):
  per-year resume via `SELECT COUNT(*) FROM chicago_crimes WHERE YEAR = :year`,
  Socrata paging with `limit = 10000`, a shared `try/except` retry with a
  2-second sleep and `exit(1)` once `retry_count > 10`.
* `API-NIBRS-request.py` — the local-file ingestion loop
  (`process_and_upload_local_data`): per (year, table) CSV chunks, column
  lower-casing, `data_year` injection when the column is absent, column
  filtering against the introspected destination schema, and `break` on a
  failed chunk write.
* `check_db.py` — the dedup compactor: reports `COUNT(*) - COUNT(DISTINCT ID)`,
  copies rows in batches of 50000 into a temp table with a unique index using
  `INSERT IGNORE`, stops when a batch's rowcount is 0, then `DROP TABLE` and
  `ALTER TABLE ... RENAME`.

Everything below is a shallow embedding of those code paths.
-/

namespace CrimeIngest

/-- Scalar-or-composite value of a source record field.  `comp` stands for a
composite (list/dict) value (for example the Socrata `location` field), `date`
for a timestamp produced by the date parser. -/
inductive Val
  | str (s : String)
  | intV (n : Nat)
  | comp (s : String)
  | date (s : String)
deriving DecidableEq, Repr

/-- A raw source record: named fields in source order (the relational view of
one row of the pandas frame built from one page). -/
abbrev RawRec := List (String × Val)

/-! ## Dedup compactor (`check_db.py`) -/

/-- A destination row reduced to (natural key `ID`, remaining payload). -/
abbrev DRow := Nat × Nat

/-- Natural keys (`ID` column) of a list of destination rows. -/
def rowKeys (t : List DRow) : List Nat := t.map Prod.fst

/-- `COUNT(DISTINCT ID)` of a table. -/
def distinctKeyCount (t : List DRow) : Nat := (rowKeys t).dedup.length

/-- The duplicate count `check_db.py` reports: `COUNT(*) - COUNT(DISTINCT ID)`. -/
def dupReport (t : List DRow) : Nat := t.length - distinctKeyCount t

/-- `INSERT IGNORE` of one batch into the temp table, which carries the unique
index `idx_id_unique (ID)`: a row whose key is already present is ignored.
Returns the new temp table contents and the statement's rowcount (the number
of rows actually inserted; ignored rows are not counted). -/
def insertIgnore : List DRow → List DRow → List DRow × Nat
  | temp, [] => (temp, 0)
  | temp, r :: rs =>
    if r.1 ∈ rowKeys temp then insertIgnore temp rs
    else
      let p := insertIgnore (temp ++ [r]) rs
      (p.1, p.2 + 1)

/-- The batch-copy loop of `check_db.py`: repeatedly run
`INSERT IGNORE INTO chicago_crimes_temp SELECT * FROM chicago_crimes
LIMIT B OFFSET offset`, advance `offset` by the batch size, and stop as soon
as a statement's rowcount is 0.  Returns the final temp table contents. -/
def copyBatches (src : List DRow) (B : Nat) (offset : Nat) (temp : List DRow) :
    List DRow :=
  let batch := (src.drop offset).take B
  let p := insertIgnore temp batch
  if h : p.2 = 0 then p.1 else copyBatches src B (offset + B) p.1
termination_by src.length - offset
decreasing_by
  have h' : (insertIgnore temp ((src.drop offset).take B)).2 ≠ 0 := h
  have hb : (src.drop offset).take B ≠ [] := by
    intro hnil
    rw [hnil] at h'
    simp [insertIgnore] at h'
  have hBpos : 0 < B := by
    rcases Nat.eq_zero_or_pos B with hB | hB
    · exact absurd (by simp [hB]) hb
    · exact hB
  have hdrop : src.drop offset ≠ [] := by
    intro hnil
    rw [hnil] at hb
    simp at hb
  have hoff : offset < src.length := by
    by_contra hle
    exact hdrop (List.drop_eq_nil_of_le (Nat.le_of_not_lt hle))
  omega

/-- The whole compaction pass of `check_db.py` (temp table starts empty,
batch size 50000, offset 0); its result is the table that ends up under the
name `chicago_crimes` after the final swap. -/
def compactTable (src : List DRow) : List DRow := copyBatches src 50000 0 []

/-! ## Table-catalog semantics for the final swap of `check_db.py` -/

/-- The catalog of the destination database: table name to contents. -/
abbrev Catalog := List (String × List DRow)

/-- Look a table up by name. -/
def lookupTable (c : Catalog) (n : String) : Option (List DRow) :=
  (c.find? (fun p => p.1 == n)).map Prod.snd

/-- The DDL statements the swap uses. -/
inductive Stmt
  | dropTable (n : String)
  | renameTable (old new : String)
deriving DecidableEq, Repr

/-- Effect of one DDL statement on the catalog. -/
def execStmt (c : Catalog) : Stmt → Catalog
  | Stmt.dropTable n => c.filter (fun p => p.1 != n)
  | Stmt.renameTable o n => c.map (fun p => if p.1 == o then (n, p.2) else p)

/-- Run a statement list left to right. -/
def execStmts (c : Catalog) (l : List Stmt) : Catalog := l.foldl execStmt c

/-- The final two statements of `check_db.py`'s cleanup, issued separately:
`DROP TABLE chicago_crimes` and then
`ALTER TABLE chicago_crimes_temp RENAME TO chicago_crimes`. -/
def swapStmts : List Stmt :=
  [Stmt.dropTable "chicago_crimes",
   Stmt.renameTable "chicago_crimes_temp" "chicago_crimes"]

/-! ## REST ingestion loop (`API-Chicago-request.py`, `fetch_and_save_all`) -/

/-- Observable actions of one ingestion run, in order.  `countQuery y` is the
resume query `SELECT COUNT(*) FROM chicago_crimes WHERE YEAR = y`;
`fetchCall c` is one source fetch at cursor `c` (a row offset for the REST
source, a chunk index for the local-file source); `write n` is a successful
destination append of `n` rows; `writeFail` a failed append attempt;
`sleepWait` the fixed 2-second backoff; `exitProc` the hard stop `exit(1)`;
`skipFile` the local-file loop skipping a missing file. -/
inductive Event
  | countQuery (year : Nat)
  | fetchCall (cursor : Nat)
  | write (rows : Nat)
  | writeFail
  | sleepWait
  | exitProc
  | skipFile
deriving DecidableEq, Repr

/-- How a partition's run ended: source exhausted (`break` out of the while
loop), process hard-stopped (`exit(1)` after the retry bound), or the model
ran out of fuel (never reached in the theorems below). -/
inductive Outcome
  | done
  | exited
  | fuelOut
deriving DecidableEq, Repr

def isFetch : Event → Bool
  | Event.fetchCall _ => true
  | _ => false

def isWrite : Event → Bool
  | Event.write _ => true
  | _ => false

def isCountQuery : Event → Bool
  | Event.countQuery _ => true
  | _ => false

def isSleep : Event → Bool
  | Event.sleepWait => true
  | _ => false

def isWriteFail : Event → Bool
  | Event.writeFail => true
  | _ => false

/-- Is this event a fetch at cursor `c`? -/
def fetchAt (c : Nat) : Event → Bool
  | Event.fetchCall k => k == c
  | _ => false

/-- Environment of one Chicago partition (one year): the answer of the resume
count query (`error` models a raised exception, `ok none` a NULL scalar); the
result of the `client.get` call on the `i`-th while-loop iteration at row
offset `off` (`error` models a raised exception); the behavior of
`pd.to_datetime` on one date string; and whether the `to_sql` append on the
`i`-th iteration succeeds. -/
structure ChiEnv where
  countResult : Except Unit (Option Nat)
  fetch : Nat → Nat → Except Unit (List RawRec)
  parseDate : String → Option String
  writeOk : Nat → Bool

/-- Python's `str.upper()` over the character list of a string. -/
def upperStr (s : String) : String := String.mk (s.data.map Char.toUpper)

/-- Python's `str.lower()` over the character list of a string. -/
def lowerStr (s : String) : String := String.mk (s.data.map Char.toLower)

/-- The resume offset: `scalar() or 0` inside `try`, with `except: offset = 0`. -/
def resumeOffset : Except Unit (Option Nat) → Nat
  | Except.error _ => 0
  | Except.ok none => 0
  | Except.ok (some n) => n

/-- Clean the fields of one record after the `location` drop and the
upper-casing: `pd.to_datetime` is applied to the `DATE` column and raises
(result `none`) when a value does not parse or is not a plain string. -/
def cleanFields (pd : String → Option String) : List (String × Val) → Option (List (String × Val))
  | [] => some []
  | (k, v) :: ps =>
    if k = "DATE" then
      match v with
      | Val.str s =>
        match pd s, cleanFields pd ps with
        | some d, some ps2 => some (("DATE", Val.date d) :: ps2)
        | _, _ => none
      | _ => none
    else
      match cleanFields pd ps with
      | some ps2 => some ((k, v) :: ps2)
      | none => none

/-- Normalize one Chicago record: drop the composite `location` column,
upper-case the column names, parse the `DATE` column.  No other field is
added or removed. -/
def cleanRec (pd : String → Option String) (r : RawRec) : Option RawRec :=
  cleanFields pd ((r.filter (fun p => p.1 ≠ "location")).map (fun p => (upperStr p.1, p.2)))

/-- Normalize a whole fetched page; any record that fails makes the whole
page raise (the pandas column operations are page-level). -/
def cleanPage (pd : String → Option String) : List RawRec → Option (List RawRec)
  | [] => some []
  | r :: rs =>
    match cleanRec pd r, cleanPage pd rs with
    | some r2, some rs2 => some (r2 :: rs2)
    | _, _ => none

/-- The Chicago while-loop body, iterated on fuel.  Arguments after the page
size `limit` (10000 in the script): remaining fuel, iteration index `i`,
current row offset, current `retry_count`.  Every exception source of the
Python `try` block (fetch, cleaning, write) lands in the same `except`
handler: increment `retry_count`; `exit(1)` once it exceeds 10; otherwise
sleep 2 seconds and `continue`, which restarts the whole iteration at the
same offset.  A successful iteration advances the offset by the fetched
record count, resets `retry_count` to 0, and breaks when the page was empty
or shorter than `limit`. -/
def chiLoop (env : ChiEnv) (limit : Nat) : Nat → Nat → Nat → Nat → List Event × Outcome
  | 0, _, _, _ => ([], Outcome.fuelOut)
  | fuel + 1, i, offset, retry =>
    match env.fetch i offset with
    | Except.error _ =>
      if retry + 1 > 10 then ([Event.fetchCall offset, Event.exitProc], Outcome.exited)
      else
        let r := chiLoop env limit fuel (i + 1) offset (retry + 1)
        (Event.fetchCall offset :: Event.sleepWait :: r.1, r.2)
    | Except.ok results =>
      if results.isEmpty then ([Event.fetchCall offset], Outcome.done)
      else
        match cleanPage env.parseDate results with
        | none =>
          if retry + 1 > 10 then ([Event.fetchCall offset, Event.exitProc], Outcome.exited)
          else
            let r := chiLoop env limit fuel (i + 1) offset (retry + 1)
            (Event.fetchCall offset :: Event.sleepWait :: r.1, r.2)
        | some rows =>
          if env.writeOk i then
            if results.length < limit then
              ([Event.fetchCall offset, Event.write rows.length], Outcome.done)
            else
              let r := chiLoop env limit fuel (i + 1) (offset + results.length) 0
              (Event.fetchCall offset :: Event.write rows.length :: r.1, r.2)
          else
            if retry + 1 > 10 then
              ([Event.fetchCall offset, Event.writeFail, Event.exitProc], Outcome.exited)
            else
              let r := chiLoop env limit fuel (i + 1) offset (retry + 1)
              (Event.fetchCall offset :: Event.writeFail :: Event.sleepWait :: r.1, r.2)

/-- One year of `fetch_and_save_all`: run the resume count query once, then
enter the while loop at the resulting offset with `retry_count = 0` and the
script's page size 10000. -/
def chiYear (env : ChiEnv) (year : Nat) (fuel : Nat) : List Event × Outcome :=
  let r := chiLoop env 10000 fuel 0 (resumeOffset env.countResult) 0
  (Event.countQuery year :: r.1, r.2)

/-! ## Local-file ingestion loop (`API-NIBRS-request.py`,
`process_and_upload_local_data`) -/

/-- Stringification of composite values
(`str(x) if isinstance(x, (list, dict)) else x`). -/
def stringifyVal : Val → Val
  | Val.comp s => Val.str s
  | v => v

/-- Normalize one CSV chunk of the NIBRS loop: lower-case the column names;
inject a `data_year` column with the partition year when the chunk has none;
when the destination table already exists, keep only the columns present in
the introspected destination schema; stringify composite values.  `cols` are
the CSV header names, each row lists the values in header order. -/
def nibrsChunk (tableExists : Bool) (dbCols : List String) (year : Nat)
    (cols : List String) (rows : List (List Val)) : List (List (String × Val)) :=
  let colsL := cols.map lowerStr
  rows.map (fun row =>
    let pairs := colsL.zip row
    let pairs2 := if "data_year" ∈ colsL then pairs
      else pairs ++ [("data_year", Val.intV year)]
    let pairs3 := if tableExists then
        pairs2.filter (fun p => p.1 ∈ dbCols.map lowerStr)
      else pairs2
    pairs3.map (fun p => (p.1, stringifyVal p.2)))

/-- Environment of one (year, table) pair of the NIBRS loop: whether the CSV
file exists, whether the destination table exists, the introspected
destination columns, the CSV header, the chunk sequence `pd.read_csv`
yields, and whether the `to_sql` append of chunk `i` succeeds. -/
structure NibrsEnv where
  fileExists : Bool
  tableExists : Bool
  dbCols : List String
  cols : List String
  chunks : List (List (List Val))
  writeOk : Nat → Bool

/-- The NIBRS chunk loop: read chunk `i`, normalize, append; a failed append
executes `break`, abandoning every remaining chunk of this file without any
retry. -/
def nibrsGo (env : NibrsEnv) (year : Nat) : Nat → List (List (List Val)) → List Event
  | _, [] => []
  | i, c :: cs =>
    let out := nibrsChunk env.tableExists env.dbCols year env.cols c
    if env.writeOk i then
      Event.fetchCall i :: Event.write out.length :: nibrsGo env year (i + 1) cs
    else [Event.fetchCall i, Event.writeFail]

/-- One (year, table) pair of `process_and_upload_local_data`: skip a missing
file, otherwise run the chunk loop from chunk 0.  No resume query of any
kind is issued. -/
def nibrsTable (env : NibrsEnv) (year : Nat) : List Event :=
  if env.fileExists then nibrsGo env year 0 env.chunks else [Event.skipFile]

/-! ## Concrete environments used by witnesses and counterexamples -/

/-- A date parser accepting exactly the string `OK`. -/
def pdStrict : String → Option String := fun s => if s = "OK" then some s else none

/-- A record with no date and no year field. -/
def recPlain : RawRec := [("id", Val.str "1")]

/-- A record whose date does not parse. -/
def recBadDate : RawRec := [("date", Val.str "BAD")]

/-- A record with a parsable date but no year field. -/
def recNoYear : RawRec := [("id", Val.str "5"), ("date", Val.str "OK")]

/-- A three-record source for the pagination witness (page size 2). -/
def srcSmall : List RawRec := [recPlain, recPlain, recPlain]

/-- Healthy environment over `srcSmall`. -/
def envPaging : ChiEnv :=
  { countResult := Except.ok (some 0)
    fetch := fun _ off => Except.ok ((srcSmall.drop off).take 2)
    parseDate := pdStrict
    writeOk := fun _ => true }

/-- Environment whose fetch always raises a transient error. -/
def envFetchFail : ChiEnv :=
  { countResult := Except.ok (some 0)
    fetch := fun _ _ => Except.error ()
    parseDate := pdStrict
    writeOk := fun _ => true }

/-- Environment whose resume count query raises. -/
def envResumeErr : ChiEnv :=
  { countResult := Except.error ()
    fetch := fun _ _ => Except.ok []
    parseDate := pdStrict
    writeOk := fun _ => true }

/-- Environment whose first destination write fails and later writes succeed,
over a source always returning the single-record page `[recPlain]`. -/
def envWriteHiccup : ChiEnv :=
  { countResult := Except.ok (some 0)
    fetch := fun _ _ => Except.ok [recPlain]
    parseDate := pdStrict
    writeOk := fun i => i != 0 }

/-- Environment whose source always returns a two-record page whose second
record has an unparseable date. -/
def envBadRow : ChiEnv :=
  { countResult := Except.ok (some 0)
    fetch := fun _ _ => Except.ok [recPlain, recBadDate]
    parseDate := pdStrict
    writeOk := fun _ => true }

/-- A NIBRS environment with one one-row chunk and a fresh destination table. -/
def nenvPlain : NibrsEnv :=
  { fileExists := true
    tableExists := false
    dbCols := []
    cols := ["incident_id"]
    chunks := [[[Val.str "a"]]]
    writeOk := fun _ => true }

/-- The normalized row the NIBRS loop produces from `nenvPlain`'s single
record for year 2019. -/
def nibrsOutRow : List (String × Val) :=
  [("incident_id", Val.str "a"), ("data_year", Val.intV 2019)]

/-- The compaction example table of the specification: ids `[1, 1, 2]`. -/
def dupTable : List DRow := [(1, 0), (1, 7), (2, 0)]

/-- A duplicate-free table. -/
def cleanTable : List DRow := [(1, 0), (2, 5)]

/-- A table that defeats the batch-copy loop: 100000 rows of key 1 followed by
one row of key 2.  The second batch of 50000 rows inserts nothing
(`rowcount = 0`), so the loop stops before ever reading the key-2 row. -/
def bigTable : List DRow := List.replicate 100000 ((1 : Nat), (0 : Nat)) ++ [(2, 0)]

/-- A catalog holding the original table and the deduplicated temp table,
as it stands right before the final swap. -/
def catBefore : Catalog :=
  [("chicago_crimes", dupTable), ("chicago_crimes_temp", [(1, 0), (2, 0)])]

/-! ## Helper lemmas about `insertIgnore` and `copyBatches` -/

theorem rowKeys_append (a b : List DRow) : rowKeys (a ++ b) = rowKeys a ++ rowKeys b :=
  List.map_append Prod.fst a b

theorem insertIgnore_all_dup :
    ∀ (l temp : List DRow), (∀ r ∈ l, r.1 ∈ rowKeys temp) → insertIgnore temp l = (temp, 0) := by
  intro l
  induction l with
  | nil => intro temp _; rfl
  | cons r rs ih =>
    intro temp h
    have hr : r.1 ∈ rowKeys temp := h r (List.mem_cons_self r rs)
    simp only [insertIgnore, if_pos hr]
    exact ih temp (fun x hx => h x (List.mem_cons_of_mem r hx))

theorem insertIgnore_count_zero :
    ∀ (l temp : List DRow), (insertIgnore temp l).2 = 0 → ∀ r ∈ l, r.1 ∈ rowKeys temp := by
  intro l
  induction l with
  | nil => intro temp _ r hr; cases hr
  | cons r rs ih =>
    intro temp h x hx
    by_cases hr : r.1 ∈ rowKeys temp
    · simp only [insertIgnore, if_pos hr] at h
      rcases List.mem_cons.mp hx with hx | hx
      · exact hx ▸ hr
      · exact ih temp h x hx
    · simp only [insertIgnore, if_neg hr] at h
      omega

theorem insertIgnore_keys_nodup :
    ∀ (l temp : List DRow), (rowKeys temp).Nodup → (rowKeys (insertIgnore temp l).1).Nodup := by
  intro l
  induction l with
  | nil => intro temp h; exact h
  | cons r rs ih =>
    intro temp h
    by_cases hr : r.1 ∈ rowKeys temp
    · simp only [insertIgnore, if_pos hr]
      exact ih temp h
    · simp only [insertIgnore, if_neg hr]
      refine ih (temp ++ [r]) ?_
      rw [rowKeys_append]
      refine List.nodup_append.mpr ⟨h, List.nodup_singleton r.1, ?_⟩
      intro k hk hk1
      rcases List.mem_singleton.mp hk1 with rfl
      exact hr hk

theorem rowKeys_cons (r : DRow) (rs : List DRow) : rowKeys (r :: rs) = r.1 :: rowKeys rs := rfl

theorem insertIgnore_mem_keys :
    ∀ (l temp : List DRow) (k : Nat),
      k ∈ rowKeys (insertIgnore temp l).1 ↔ k ∈ rowKeys temp ∨ k ∈ rowKeys l := by
  intro l
  induction l with
  | nil => intro temp k; simp [insertIgnore, rowKeys]
  | cons r rs ih =>
    intro temp k
    by_cases hr : r.1 ∈ rowKeys temp
    · have hstep : (insertIgnore temp (r :: rs)).1 = (insertIgnore temp rs).1 := by
        simp [insertIgnore, hr]
      rw [hstep, ih, rowKeys_cons, List.mem_cons]
      constructor
      · rintro (h | h)
        · exact Or.inl h
        · exact Or.inr (Or.inr h)
      · rintro (h | h | h)
        · exact Or.inl h
        · exact Or.inl (h ▸ hr)
        · exact Or.inr h
    · have hstep : (insertIgnore temp (r :: rs)).1 = (insertIgnore (temp ++ [r]) rs).1 := by
        simp [insertIgnore, hr]
      rw [hstep, ih, rowKeys_append, rowKeys_cons]
      simp only [rowKeys, List.map_cons, List.map_nil, List.mem_append, List.mem_cons,
        List.not_mem_nil, or_false]
      tauto

theorem insertIgnore_disjoint :
    ∀ (l temp : List DRow), (rowKeys (temp ++ l)).Nodup →
      insertIgnore temp l = (temp ++ l, l.length) := by
  intro l
  induction l with
  | nil => intro temp _; simp [insertIgnore]
  | cons r rs ih =>
    intro temp h
    have hr : r.1 ∉ rowKeys temp := by
      rw [rowKeys_append] at h
      intro hmem
      have hd := List.disjoint_of_nodup_append h
      exact hd hmem (by simp [rowKeys])
    simp only [insertIgnore, if_neg hr]
    have happ : (temp ++ [r]) ++ rs = temp ++ r :: rs := by
      simp
    have h2 : (rowKeys ((temp ++ [r]) ++ rs)).Nodup := by rw [happ]; exact h
    rw [ih (temp ++ [r]) h2]
    simp [happ]

theorem insertIgnore_replicate_same (n : Nat) (v : DRow) (temp : List DRow)
    (h : v.1 ∈ rowKeys temp) : insertIgnore temp (List.replicate n v) = (temp, 0) := by
  refine insertIgnore_all_dup _ _ ?_
  intro r hr
  rw [List.eq_of_mem_replicate hr]
  exact h

theorem insertIgnore_replicate_head (n : Nat) (v : DRow) (hn : 0 < n) :
    insertIgnore [] (List.replicate n v) = ([v], 1) := by
  cases n with
  | zero => omega
  | succ m =>
    rw [List.replicate_succ]
    have hv : v.1 ∉ rowKeys ([] : List DRow) := by simp [rowKeys]
    simp only [insertIgnore, if_neg hv, List.nil_append]
    rw [insertIgnore_replicate_same m v [v] (by simp [rowKeys])]

theorem compact_eq_insertIgnore (src : List DRow) (hlen : src.length ≤ 50000) :
    compactTable src = (insertIgnore [] src).1 := by
  rw [compactTable, copyBatches]
  simp only [List.drop_zero, List.take_of_length_le hlen]
  split
  · rfl
  · rw [copyBatches]
    have hd : src.drop (0 + 50000) = [] :=
      List.drop_eq_nil_of_le (by omega)
    simp [hd, insertIgnore]

theorem copyBatches_nodup_aux (src : List DRow) (hnd : (rowKeys src).Nodup) :
    ∀ (b offset : Nat), src.length ≤ offset + 50000 * b →
      copyBatches src 50000 offset (src.take offset) = src := by
  intro b
  induction b with
  | zero =>
    intro offset hb
    rw [copyBatches]
    have hd : src.drop offset = [] := List.drop_eq_nil_of_le (by omega)
    have ht : src.take offset = src := List.take_of_length_le (by omega)
    simp [hd, insertIgnore, ht]
  | succ m ih =>
    intro offset hb
    rw [copyBatches]
    have hbatch : (src.drop offset).take 50000 = (src.take (offset + 50000)).drop offset := by
      rw [List.take_drop]
    have htemp : src.take offset ++ (src.drop offset).take 50000 = src.take (offset + 50000) := by
      rw [List.take_add]
    have hnd2 : (rowKeys (src.take offset ++ (src.drop offset).take 50000)).Nodup := by
      rw [htemp]
      have hmt : rowKeys (src.take (offset + 50000)) = (rowKeys src).take (offset + 50000) := by
        simp [rowKeys, List.map_take]
      rw [hmt]
      exact List.Nodup.sublist (List.take_sublist _ _) hnd
    rw [insertIgnore_disjoint _ _ hnd2]
    by_cases hb0 : ((src.drop offset).take 50000).length = 0
    · have hbn : (src.drop offset).take 50000 = [] := List.length_eq_zero.mp hb0
      have hdn : src.drop offset = [] := by
        rcases List.take_eq_nil_iff.mp hbn with h | h
        · exact absurd h (by norm_num)
        · exact h
      have hlen2 : src.length ≤ offset := List.drop_eq_nil_iff.mp hdn
      simp only [hb0, hbn, List.append_nil, dif_pos]
      exact List.take_of_length_le hlen2
    · rw [dif_neg hb0, htemp]
      exact ih (offset + 50000) (by omega)

/-! ## Claims C8, C9, C10 -/

/-- C8 (amended): for input tables that fit in a single copy batch (at most
50000 rows), `compact` yields a table with exactly one row per distinct
natural key of the input (no key duplicated, no key lost), the reported
`removed_count = COUNT(*) - COUNT(DISTINCT natural_key)` equals the number
of rows actually removed, and re-running `compact` reports 0. -/
theorem c8_compact_dedups_single_batch (src : List DRow) (hlen : src.length ≤ 50000) :
    (rowKeys (compactTable src)).Nodup ∧
    (∀ k, k ∈ rowKeys (compactTable src) ↔ k ∈ rowKeys src) ∧
    (compactTable src).length = distinctKeyCount src ∧
    src.length - (compactTable src).length = dupReport src ∧
    dupReport (compactTable src) = 0 := by
  rw [compact_eq_insertIgnore src hlen]
  have hnil : (rowKeys ([] : List DRow)).Nodup := by simp [rowKeys]
  have hnd := insertIgnore_keys_nodup src [] hnil
  have hmem : ∀ k, k ∈ rowKeys (insertIgnore [] src).1 ↔ k ∈ rowKeys src := by
    intro k
    rw [insertIgnore_mem_keys]
    simp [rowKeys]
  have hperm : (rowKeys (insertIgnore [] src).1).Perm (rowKeys src).dedup := by
    refine (List.perm_ext_iff_of_nodup hnd (List.nodup_dedup _)).mpr ?_
    intro k
    rw [hmem k, List.mem_dedup]
  have hlen2 : (insertIgnore [] src).1.length = distinctKeyCount src := by
    have := hperm.length_eq
    rwa [rowKeys, List.length_map] at this
  refine ⟨hnd, hmem, hlen2, ?_, ?_⟩
  · rw [hlen2]; rfl
  · rw [dupReport, distinctKeyCount, List.dedup_eq_self.mpr hnd, rowKeys, List.length_map]
    omega

/-- C8 (counterexample): on a table of 100001 rows whose first 100000 rows all
carry natural key 1 and whose last row carries key 2, the second copy batch
inserts nothing (`INSERT IGNORE` rowcount 0), the loop stops early, and key 2
is lost, contradicting "no key lost" for every input table. -/
theorem c8_counterexample_key_lost :
    (2 : Nat) ∈ rowKeys bigTable ∧
    compactTable bigTable = [(1, 0)] ∧
    ¬ ((2 : Nat) ∈ rowKeys (compactTable bigTable)) := by
  have hx1 : ((1 : Nat), (0 : Nat)).1 ∈ rowKeys [((1 : Nat), (0 : Nat))] := by
    simp [rowKeys]
  have hcompact : compactTable bigTable = [(1, 0)] := by
    rw [compactTable, copyBatches]
    have hb1 : (bigTable.drop 0).take 50000 = List.replicate 50000 ((1 : Nat), (0 : Nat)) := by
      rw [List.drop_zero, bigTable, List.take_append_eq_append_take]
      rw [List.take_replicate, List.length_replicate]
      norm_num
    rw [hb1, insertIgnore_replicate_head 50000 _ (by norm_num)]
    rw [dif_neg (by norm_num), copyBatches]
    have hb2 : (bigTable.drop (0 + 50000)).take 50000 =
        List.replicate 50000 ((1 : Nat), (0 : Nat)) := by
      rw [bigTable, List.drop_append_eq_append_drop, List.drop_replicate, List.length_replicate]
      norm_num
    rw [hb2, insertIgnore_replicate_same 50000 _ _ hx1]
    rfl
  refine ⟨?_, hcompact, ?_⟩
  · rw [bigTable, rowKeys_append]
    exact List.mem_append_right _ (by decide)
  · rw [hcompact]
    decide

/-- C8 (witness): the specification's own example, ids `[1, 1, 2]`: the result
has exactly the two keys 1 and 2, one row each, the report is
`3 - 2 = 1`, and compacting again reports 0. -/
theorem c8_witness :
    dupTable.length ≤ 50000 ∧
    compactTable dupTable = [(1, 0), (2, 0)] ∧
    dupReport dupTable = 1 ∧
    (rowKeys (compactTable dupTable)).Nodup ∧
    dupReport (compactTable dupTable) = 0 := by
  have h := c8_compact_dedups_single_batch dupTable (by norm_num [dupTable])
  have hc : compactTable dupTable = [(1, 0), (2, 0)] := by
    rw [compact_eq_insertIgnore dupTable (by norm_num [dupTable])]
    decide
  exact ⟨by norm_num [dupTable], hc, by decide, h.1, h.2.2.2.2⟩

/-- C9: `compact` on a table with no duplicate natural keys removes zero rows
and returns the table unchanged (even row order is preserved), so a second
consecutive run produces exactly what one run produces. -/
theorem c9_compact_idempotent (src : List DRow) (h : (rowKeys src).Nodup) :
    compactTable src = src ∧ dupReport src = 0 ∧
    compactTable (compactTable src) = compactTable src := by
  have hc : compactTable src = src := by
    have := copyBatches_nodup_aux src h (src.length + 1) 0 (by nlinarith)
    rwa [List.take_zero] at this
  refine ⟨hc, ?_, by rw [hc]; exact hc⟩
  rw [dupReport, distinctKeyCount, List.dedup_eq_self.mpr h, rowKeys, List.length_map]
  omega

/-- C9 (witness): the duplicate-free table `[(1,0),(2,5)]` is left unchanged
by compaction and reports zero duplicates. -/
theorem c9_witness :
    (rowKeys cleanTable).Nodup ∧ compactTable cleanTable = cleanTable ∧
    dupReport cleanTable = 0 := by
  have hnd : (rowKeys cleanTable).Nodup := by decide
  have h := c9_compact_idempotent cleanTable hnd
  exact ⟨hnd, h.1, h.2.1⟩

theorem lookupTable_cons (p : String × List DRow) (ps : Catalog) (m : String) :
    lookupTable (p :: ps) m = if p.1 = m then some p.2 else lookupTable ps m := by
  by_cases h : p.1 = m
  · rw [lookupTable, List.find?_cons_of_pos _ (by simp [h]), if_pos h]
    rfl
  · rw [lookupTable, List.find?_cons_of_neg _ (by simp [h]), if_neg h]
    rfl

theorem execStmt_drop_cons (p : String × List DRow) (ps : Catalog) (n : String) :
    execStmt (p :: ps) (Stmt.dropTable n) =
      if p.1 = n then execStmt ps (Stmt.dropTable n)
      else p :: execStmt ps (Stmt.dropTable n) := by
  by_cases h : p.1 = n
  · rw [if_pos h]
    show List.filter _ _ = _
    rw [List.filter_cons_of_neg (by simp [h])]
    rfl
  · rw [if_neg h]
    show List.filter _ _ = _
    rw [List.filter_cons_of_pos (by simp [h])]
    rfl

theorem execStmt_rename_cons (p : String × List DRow) (ps : Catalog) (o n : String) :
    execStmt (p :: ps) (Stmt.renameTable o n) =
      (if p.1 = o then (n, p.2) else p) :: execStmt ps (Stmt.renameTable o n) := by
  show List.map _ _ = _
  rw [List.map_cons]
  by_cases h : p.1 = o
  · rw [if_pos h]
    congr 1
    simp [h]
  · rw [if_neg h]
    congr 1
    simp [h]

theorem lookup_drop_self (c : Catalog) (n : String) :
    lookupTable (execStmt c (Stmt.dropTable n)) n = none := by
  induction c with
  | nil => rfl
  | cons p ps ih =>
    rw [execStmt_drop_cons]
    by_cases h : p.1 = n
    · rw [if_pos h]
      exact ih
    · rw [if_neg h, lookupTable_cons, if_neg h]
      exact ih

theorem lookup_drop_other (c : Catalog) (n m : String) (hnm : m ≠ n) :
    lookupTable (execStmt c (Stmt.dropTable n)) m = lookupTable c m := by
  induction c with
  | nil => rfl
  | cons p ps ih =>
    rw [execStmt_drop_cons]
    by_cases h : p.1 = n
    · rw [if_pos h, ih, lookupTable_cons, if_neg (fun hm => hnm (by rw [← hm, h]))]
    · rw [if_neg h, lookupTable_cons, lookupTable_cons]
      by_cases hm : p.1 = m
      · rw [if_pos hm, if_pos hm]
      · rw [if_neg hm, if_neg hm]
        exact ih

theorem lookup_rename :
    ∀ (c : Catalog) (o n : String) (t : List DRow),
      lookupTable c o = some t → lookupTable c n = none →
      lookupTable (execStmt c (Stmt.renameTable o n)) n = some t := by
  intro c o n t
  induction c with
  | nil => intro ho _; cases ho
  | cons p ps ih =>
    intro ho hn
    rw [execStmt_rename_cons]
    by_cases h : p.1 = o
    · have hpt : p.2 = t := by
        rw [lookupTable_cons, if_pos h] at ho
        exact Option.some.inj ho
      rw [if_pos h, lookupTable_cons, if_pos rfl, hpt]
    · have hpn : p.1 ≠ n := by
        intro hp
        rw [lookupTable_cons, if_pos hp] at hn
        cases hn
      have ho2 : lookupTable ps o = some t := by rwa [lookupTable_cons, if_neg h] at ho
      have hn2 : lookupTable ps n = none := by rwa [lookupTable_cons, if_neg hpn] at hn
      rw [if_neg h, lookupTable_cons, if_neg hpn]
      exact ih ho2 hn2

/-- C10: the final swap of the compactor is not atomic: it runs
`DROP TABLE chicago_crimes` and the `RENAME` of the temp table as two separate
statements, and in the intermediate state after the first statement no table
exists under the original name while the deduplicated data is reachable only
under the temp name; only after the second statement does the original name
hold the deduplicated rows. -/
theorem c10_swap_not_atomic (cat : Catalog) (orig t : List DRow)
    (h1 : lookupTable cat "chicago_crimes" = some orig)
    (h2 : lookupTable cat "chicago_crimes_temp" = some t) :
    swapStmts.length = 2 ∧
    lookupTable (execStmts cat (swapStmts.take 1)) "chicago_crimes" = none ∧
    lookupTable (execStmts cat (swapStmts.take 1)) "chicago_crimes_temp" = some t ∧
    lookupTable (execStmts cat swapStmts) "chicago_crimes" = some t := by
  have hmid1 : lookupTable (execStmt cat (Stmt.dropTable "chicago_crimes"))
      "chicago_crimes" = none := lookup_drop_self cat "chicago_crimes"
  have hmid2 : lookupTable (execStmt cat (Stmt.dropTable "chicago_crimes"))
      "chicago_crimes_temp" = some t := by
    rw [lookup_drop_other cat "chicago_crimes" "chicago_crimes_temp" (by decide)]
    exact h2
  refine ⟨rfl, hmid1, hmid2, ?_⟩
  exact lookup_rename _ "chicago_crimes_temp" "chicago_crimes" t hmid2 hmid1

/-- C10 (witness): the swap theorem applied to a concrete catalog holding the
`[1,1,2]` table and its deduplicated temp copy. -/
theorem c10_witness :
    lookupTable (execStmts catBefore (swapStmts.take 1)) "chicago_crimes" = none ∧
    lookupTable (execStmts catBefore swapStmts) "chicago_crimes" = some [(1, 0), (2, 0)] := by
  have h := c10_swap_not_atomic catBefore dupTable [(1, 0), (2, 0)] (by decide) (by decide)
  exact ⟨h.2.1, h.2.2.2⟩

/-! ## Helper lemmas about the REST ingestion loop -/

theorem cleanPage_isSome_of_forall (pd : String → Option String) :
    ∀ (l : List RawRec), (∀ r ∈ l, (cleanRec pd r).isSome) →
      ∃ out, cleanPage pd l = some out ∧ out.length = l.length := by
  intro l
  induction l with
  | nil => intro _; exact ⟨[], rfl, rfl⟩
  | cons r rs ih =>
    intro h
    obtain ⟨r2, hr2⟩ := Option.isSome_iff_exists.mp (h r (List.mem_cons_self r rs))
    obtain ⟨out, hout, hlen⟩ := ih (fun x hx => h x (List.mem_cons_of_mem r hx))
    refine ⟨r2 :: out, ?_, by simp [hlen]⟩
    simp only [cleanPage, hr2, hout]

theorem chiLoop_head_fetch (env : ChiEnv) (limit fuel i off retry : Nat) :
    (chiLoop env limit (fuel + 1) i off retry).1.take 1 = [Event.fetchCall off] := by
  simp only [chiLoop]
  split
  · split <;> rfl
  · split
    · rfl
    · split
      · split <;> rfl
      · split
        · split <;> rfl
        · split <;> rfl

theorem chiLoop_no_countQuery (env : ChiEnv) (limit : Nat) :
    ∀ (fuel i off retry : Nat),
      List.countP isCountQuery (chiLoop env limit fuel i off retry).1 = 0 := by
  intro fuel
  induction fuel with
  | zero => intro i off retry; rfl
  | succ m ih =>
    intro i off retry
    simp only [chiLoop]
    split
    · split
      · rfl
      · simp [List.countP_cons, isCountQuery, ih]
    · split
      · rfl
      · split
        · split
          · rfl
          · simp [List.countP_cons, isCountQuery, ih]
        · split
          · split
            · rfl
            · simp [List.countP_cons, isCountQuery, ih]
          · split
            · rfl
            · simp [List.countP_cons, isCountQuery, ih]

theorem nibrsGo_no_countQuery (env : NibrsEnv) (year : Nat) :
    ∀ (cs : List (List (List Val))) (i : Nat),
      List.countP isCountQuery (nibrsGo env year i cs) = 0 := by
  intro cs
  induction cs with
  | nil => intro i; rfl
  | cons c cs2 ih =>
    intro i
    simp only [nibrsGo]
    split
    · simp [List.countP_cons, isCountQuery, ih]
    · rfl

theorem chiLoop_fetch_err (env : ChiEnv) (limit : Nat)
    (hf : ∀ i off, env.fetch i off = Except.error ()) :
    ∀ (fuel retry i off : Nat), retry ≤ 10 → 11 - retry ≤ fuel →
      List.countP isFetch (chiLoop env limit fuel i off retry).1 = 11 - retry ∧
      List.countP isWrite (chiLoop env limit fuel i off retry).1 = 0 ∧
      List.countP isSleep (chiLoop env limit fuel i off retry).1 = 10 - retry ∧
      (chiLoop env limit fuel i off retry).2 = Outcome.exited := by
  intro fuel
  induction fuel with
  | zero => intro retry i off h10 hle; omega
  | succ m ih =>
    intro retry i off h10 hle
    by_cases hr : retry + 1 > 10
    · have heq : chiLoop env limit (m + 1) i off retry =
          ([Event.fetchCall off, Event.exitProc], Outcome.exited) := by
        simp only [chiLoop, hf i off]
        rw [if_pos hr]
      rw [heq]
      have h10eq : retry = 10 := by omega
      subst h10eq
      refine ⟨rfl, rfl, rfl, rfl⟩
    · have heq : chiLoop env limit (m + 1) i off retry =
          (Event.fetchCall off :: Event.sleepWait ::
            (chiLoop env limit m (i + 1) off (retry + 1)).1,
           (chiLoop env limit m (i + 1) off (retry + 1)).2) := by
        simp only [chiLoop, hf i off]
        rw [if_neg hr]
      rw [heq]
      obtain ⟨h1, h2, h3, h4⟩ := ih (retry + 1) (i + 1) off (by omega) (by omega)
      refine ⟨?_, ?_, ?_, h4⟩
      · rw [List.countP_cons, List.countP_cons, h1]
        simp [isFetch]
        omega
      · rw [List.countP_cons, List.countP_cons, h2]
        simp [isWrite]
      · rw [List.countP_cons, List.countP_cons, h3]
        simp [isSleep]
        omega

theorem chiLoop_clean_err (env : ChiEnv) (limit : Nat) (page : List RawRec)
    (hf : ∀ i off, env.fetch i off = Except.ok page)
    (hne : page.isEmpty = false)
    (hcl : cleanPage env.parseDate page = none) :
    ∀ (fuel retry i off : Nat), retry ≤ 10 → 11 - retry ≤ fuel →
      List.countP isFetch (chiLoop env limit fuel i off retry).1 = 11 - retry ∧
      List.countP isWrite (chiLoop env limit fuel i off retry).1 = 0 ∧
      (chiLoop env limit fuel i off retry).2 = Outcome.exited := by
  intro fuel
  induction fuel with
  | zero => intro retry i off h10 hle; omega
  | succ m ih =>
    intro retry i off h10 hle
    by_cases hr : retry + 1 > 10
    · have heq : chiLoop env limit (m + 1) i off retry =
          ([Event.fetchCall off, Event.exitProc], Outcome.exited) := by
        simp only [chiLoop, hf i off, hne, hcl]
        rw [if_neg Bool.false_ne_true, if_pos hr]
      rw [heq]
      have h10eq : retry = 10 := by omega
      subst h10eq
      refine ⟨rfl, rfl, rfl⟩
    · have heq : chiLoop env limit (m + 1) i off retry =
          (Event.fetchCall off :: Event.sleepWait ::
            (chiLoop env limit m (i + 1) off (retry + 1)).1,
           (chiLoop env limit m (i + 1) off (retry + 1)).2) := by
        simp only [chiLoop, hf i off, hne, hcl]
        rw [if_neg Bool.false_ne_true, if_neg hr]
      rw [heq]
      obtain ⟨h1, h2, h4⟩ := ih (retry + 1) (i + 1) off (by omega) (by omega)
      refine ⟨?_, ?_, h4⟩
      · rw [List.countP_cons, List.countP_cons, h1]
        simp [isFetch]
        omega
      · rw [List.countP_cons, List.countP_cons, h2]
        simp [isWrite]

/-! ## Claims C1 to C4 -/

/-- C1 (amended): the REST-variant ingestion loop consults the Resume Tracker
exactly once per partition, as the very first action, sets the initial fetch
cursor to the count the query returned, and issues no fetch before the count
is obtained; the local-file variant performs no resume query at all. -/
theorem c1_rest_resume_once :
    (∀ (env : ChiEnv) (year fuel : Nat),
      (chiYear env year (fuel + 1)).1.take 2 =
        [Event.countQuery year, Event.fetchCall (resumeOffset env.countResult)] ∧
      List.countP isCountQuery (chiYear env year (fuel + 1)).1 = 1) ∧
    (∀ (nenv : NibrsEnv) (year : Nat),
      List.countP isCountQuery (nibrsTable nenv year) = 0) := by
  constructor
  · intro env year fuel
    constructor
    · show (Event.countQuery year ::
          (chiLoop env 10000 (fuel + 1) 0 (resumeOffset env.countResult) 0).1).take 2 = _
      rw [List.take_succ_cons, chiLoop_head_fetch]
    · show List.countP isCountQuery (Event.countQuery year ::
          (chiLoop env 10000 (fuel + 1) 0 (resumeOffset env.countResult) 0).1) = 1
      rw [List.countP_cons, chiLoop_no_countQuery]
      rfl
  · intro nenv year
    rw [nibrsTable]
    split
    · exact nibrsGo_no_countQuery nenv year nenv.chunks 0
    · rfl

/-- C1 (counterexample): a local-file partition is ingested (one chunk is
read at cursor 0 and one row written) without the Resume Tracker ever being
consulted, so "for every partition the loop consults the Resume Tracker
exactly once" fails on the local-file variant. -/
theorem c1_counterexample_nibrs_never_consults :
    nibrsTable nenvPlain 2015 = [Event.fetchCall 0, Event.write 1] ∧
    List.countP isCountQuery (nibrsTable nenvPlain 2015) = 0 := by
  constructor <;> decide

/-- C2: for a source that yields N full pages of size `limit` and then a final
short page of size R with 0 < R < `limit`, the REST loop issues exactly N+1
fetch calls for the partition and then terminates in DONE; the
shorter-than-page-size fetch is the termination signal. -/
theorem c2_pagination_termination (env : ChiEnv) (limit R : Nat) (src : List RawRec)
    (hfetch : ∀ i off, env.fetch i off = Except.ok ((src.drop off).take limit))
    (hclean : ∀ r ∈ src, (cleanRec env.parseDate r).isSome)
    (hw : ∀ i, env.writeOk i = true)
    (hR0 : 0 < R) (hRS : R < limit) :
    (∀ (N off i : Nat), src.length = off + (N * limit + R) →
      List.countP isFetch (chiLoop env limit (N + 1) i off 0).1 = N + 1 ∧
      (chiLoop env limit (N + 1) i off 0).2 = Outcome.done) ∧
    (∀ (off2 i2 fuel2 : Nat), src.length ≤ off2 →
      chiLoop env limit (fuel2 + 1) i2 off2 0 = ([Event.fetchCall off2], Outcome.done)) := by
  constructor
  case right =>
    intro off2 i2 fuel2 hoff
    have hnil : (src.drop off2).take limit = [] := by
      rw [List.drop_eq_nil_of_le hoff, List.take_nil]
    simp only [chiLoop, hfetch i2 off2, hnil, List.isEmpty_nil]
    rw [if_pos trivial]
  case left =>
  intro N
  induction N with
  | zero =>
    intro off i hlen
    have hclean2 : ∀ r ∈ (src.drop off).take limit, (cleanRec env.parseDate r).isSome :=
      fun r hr => hclean r (List.drop_subset off src (List.take_subset limit _ hr))
    obtain ⟨rows, hrows, _⟩ := cleanPage_isSome_of_forall env.parseDate _ hclean2
    have hbatchlen : ((src.drop off).take limit).length = R := by
      simp only [List.length_take, List.length_drop]
      omega
    have hbne : ((src.drop off).take limit).isEmpty = false := by
      rw [List.isEmpty_eq_false]
      intro hnil
      rw [hnil] at hbatchlen
      simp at hbatchlen
      omega
    have heq : chiLoop env limit (0 + 1) i off 0 =
        ([Event.fetchCall off, Event.write rows.length], Outcome.done) := by
      simp only [chiLoop, hfetch i off, hbne, hrows, hw i]
      rw [if_neg Bool.false_ne_true, if_pos trivial, hbatchlen, if_pos hRS]
    rw [heq]
    exact ⟨rfl, rfl⟩
  | succ n ih =>
    intro off i hlen
    have hclean2 : ∀ r ∈ (src.drop off).take limit, (cleanRec env.parseDate r).isSome :=
      fun r hr => hclean r (List.drop_subset off src (List.take_subset limit _ hr))
    obtain ⟨rows, hrows, _⟩ := cleanPage_isSome_of_forall env.parseDate _ hclean2
    have hmul : limit ≤ (n + 1) * limit := Nat.le_mul_of_pos_left limit (Nat.succ_pos n)
    have hbatchlen : ((src.drop off).take limit).length = limit := by
      simp only [List.length_take, List.length_drop]
      omega
    have hbne : ((src.drop off).take limit).isEmpty = false := by
      rw [List.isEmpty_eq_false]
      intro hnil
      rw [hnil] at hbatchlen
      simp at hbatchlen
      omega
    have hsucc : (n + 1) * limit = n * limit + limit := Nat.succ_mul n limit
    obtain ⟨ih1, ih2⟩ := ih (off + limit) (i + 1) (by omega)
    have heq : chiLoop env limit (n + 1 + 1) i off 0 =
        (Event.fetchCall off :: Event.write rows.length ::
          (chiLoop env limit (n + 1) (i + 1) (off + limit) 0).1,
         (chiLoop env limit (n + 1) (i + 1) (off + limit) 0).2) := by
      simp only [chiLoop, hfetch i off, hbne, hrows, hw i]
      rw [if_neg Bool.false_ne_true, if_pos trivial, hbatchlen, if_neg (lt_irrefl limit)]
    rw [heq]
    constructor
    · rw [List.countP_cons, List.countP_cons, ih1]
      simp [isFetch]
    · exact ih2

/-- C2 (witness): with page size 2 over a three-record source (one full page,
then a short page of one record), the loop makes exactly 2 fetch calls and
finishes in DONE; a fetch beyond the source (empty page) terminates at once. -/
theorem c2_witness :
    List.countP isFetch (chiLoop envPaging 2 2 0 0 0).1 = 2 ∧
    (chiLoop envPaging 2 2 0 0 0).2 = Outcome.done ∧
    chiLoop envPaging 2 1 0 5 0 = ([Event.fetchCall 5], Outcome.done) := by
  have h := c2_pagination_termination envPaging 2 1 srcSmall (fun _ _ => rfl)
    (by decide) (fun _ => rfl) (by norm_num) (by norm_num)
  exact ⟨(h.1 1 0 0 (by decide)).1, (h.1 1 0 0 (by decide)).2, h.2 5 0 0 (by decide)⟩

/-- C3: with a source whose fetch always raises a transient error, the REST
loop calls fetch exactly 11 times (initial attempt plus 10 retries, with a
backoff sleep between consecutive attempts), writes no rows, and halts the
process. -/
theorem c3_retry_bound (env : ChiEnv) (year fuel : Nat)
    (hf : ∀ i off, env.fetch i off = Except.error ())
    (hfuel : 11 ≤ fuel) :
    List.countP isFetch (chiYear env year fuel).1 = 11 ∧
    List.countP isWrite (chiYear env year fuel).1 = 0 ∧
    List.countP isSleep (chiYear env year fuel).1 = 10 ∧
    (chiYear env year fuel).2 = Outcome.exited := by
  obtain ⟨h1, h2, h3, h4⟩ :=
    chiLoop_fetch_err env 10000 hf fuel 0 0 (resumeOffset env.countResult)
      (by omega) (by omega)
  refine ⟨?_, ?_, ?_, h4⟩
  · show List.countP isFetch (Event.countQuery year ::
        (chiLoop env 10000 fuel 0 (resumeOffset env.countResult) 0).1) = 11
    rw [List.countP_cons, h1]
    rfl
  · show List.countP isWrite (Event.countQuery year ::
        (chiLoop env 10000 fuel 0 (resumeOffset env.countResult) 0).1) = 0
    rw [List.countP_cons, h2]
    rfl
  · show List.countP isSleep (Event.countQuery year ::
        (chiLoop env 10000 fuel 0 (resumeOffset env.countResult) 0).1) = 10
    rw [List.countP_cons, h3]
    rfl

/-- C3 (witness): the always-failing environment at fuel 11. -/
theorem c3_witness :
    List.countP isFetch (chiYear envFetchFail 0 11).1 = 11 ∧
    List.countP isWrite (chiYear envFetchFail 0 11).1 = 0 ∧
    List.countP isSleep (chiYear envFetchFail 0 11).1 = 10 ∧
    (chiYear envFetchFail 0 11).2 = Outcome.exited :=
  c3_retry_bound envFetchFail 0 11 (fun _ _ => rfl) (by norm_num)

/-- C4: when the resume count query raises or returns no value, the offset is
0, the error is not propagated, and the partition's loop runs exactly as it
would from scratch. -/
theorem c4_resume_fail_open (env : ChiEnv) (year fuel : Nat)
    (h : env.countResult = Except.error () ∨ env.countResult = Except.ok none) :
    resumeOffset env.countResult = 0 ∧
    chiYear env year fuel =
      (Event.countQuery year :: (chiLoop env 10000 fuel 0 0 0).1,
        (chiLoop env 10000 fuel 0 0 0).2) := by
  have h0 : resumeOffset env.countResult = 0 := by
    rcases h with h | h <;> rw [h] <;> rfl
  refine ⟨h0, ?_⟩
  rw [chiYear, h0]

/-- C4 (witness): the environment whose count query raises proceeds from
offset 0. -/
theorem c4_witness :
    resumeOffset envResumeErr.countResult = 0 ∧
    chiYear envResumeErr 0 5 =
      (Event.countQuery 0 :: (chiLoop envResumeErr 10000 5 0 0 0).1,
        (chiLoop envResumeErr 10000 5 0 0 0).2) :=
  c4_resume_fail_open envResumeErr 0 5 (Or.inl rfl)

theorem chiLoop_step_done (env : ChiEnv) (limit fuel i off retry : Nat)
    (page rows : List RawRec)
    (hf : env.fetch i off = Except.ok page)
    (hne : page.isEmpty = false)
    (hcl : cleanPage env.parseDate page = some rows)
    (hwt : env.writeOk i = true)
    (hlt : page.length < limit) :
    chiLoop env limit (fuel + 1) i off retry =
      ([Event.fetchCall off, Event.write rows.length], Outcome.done) := by
  simp only [chiLoop, hf, hne, hcl, hwt]
  rw [if_neg Bool.false_ne_true, if_pos trivial, if_pos hlt]

theorem chiLoop_step_writeFail (env : ChiEnv) (limit fuel i off retry : Nat)
    (page rows : List RawRec)
    (hf : env.fetch i off = Except.ok page)
    (hne : page.isEmpty = false)
    (hcl : cleanPage env.parseDate page = some rows)
    (hwf : env.writeOk i = false)
    (hr : retry + 1 ≤ 10) :
    chiLoop env limit (fuel + 1) i off retry =
      (Event.fetchCall off :: Event.writeFail :: Event.sleepWait ::
        (chiLoop env limit fuel (i + 1) off (retry + 1)).1,
       (chiLoop env limit fuel (i + 1) off (retry + 1)).2) := by
  simp only [chiLoop, hf, hne, hcl, hwf]
  rw [if_neg Bool.false_ne_true, if_neg Bool.false_ne_true,
    if_neg (by omega : ¬ (retry + 1 > 10))]

/-! ## Claims C5 to C7 -/

/-- C5 (amended): a transient write failure is handled by the iteration-level
`except` handler, so the loop re-runs the whole iteration: it re-issues the
fetch for the same page at the same cursor (one extra fetch per write
failure) before re-attempting the write; the write itself is not retried in
isolation. -/
theorem c5_write_failure_reissues_fetch (env : ChiEnv) (limit off fuel : Nat)
    (page rows : List RawRec)
    (hf : ∀ i o2, env.fetch i o2 = Except.ok page)
    (hw0 : env.writeOk 0 = false)
    (hw1 : env.writeOk 1 = true)
    (hne : page.isEmpty = false)
    (hcl : cleanPage env.parseDate page = some rows)
    (hlt : page.length < limit) :
    (chiLoop env limit (fuel + 1 + 1) 0 off 0).1 =
      [Event.fetchCall off, Event.writeFail, Event.sleepWait,
        Event.fetchCall off, Event.write rows.length] ∧
    (chiLoop env limit (fuel + 1 + 1) 0 off 0).2 = Outcome.done ∧
    List.countP (fetchAt off) (chiLoop env limit (fuel + 1 + 1) 0 off 0).1 = 2 := by
  have h1 : chiLoop env limit (fuel + 1 + 1) 0 off 0 =
      ([Event.fetchCall off, Event.writeFail, Event.sleepWait,
        Event.fetchCall off, Event.write rows.length], Outcome.done) := by
    rw [chiLoop_step_writeFail env limit (fuel + 1) 0 off 0 page rows (hf 0 off)
        hne hcl hw0 (by omega),
      chiLoop_step_done env limit fuel 1 off 1 page rows (hf 1 off) hne hcl hw1 hlt]
  rw [h1]
  refine ⟨rfl, rfl, ?_⟩
  simp [List.countP_cons, fetchAt]

/-- C5 (counterexample): one transient write failure on the very first page,
then a healthy destination: the trace shows 2 fetch calls at cursor 0 and 1
failed plus 1 successful write, so a write failure does increase the number
of fetch calls made at the current cursor, contradicting "retries only the
write and never re-issues the fetch". -/
theorem c5_counterexample_refetch_on_write_failure :
    List.countP (fetchAt 0) (chiYear envWriteHiccup 0 3).1 = 2 ∧
    List.countP isWriteFail (chiYear envWriteHiccup 0 3).1 = 1 ∧
    List.countP isWrite (chiYear envWriteHiccup 0 3).1 = 1 ∧
    (chiYear envWriteHiccup 0 3).2 = Outcome.done := by
  refine ⟨?_, ?_, ?_, ?_⟩ <;> decide

/-- C5 (witness): the amended statement at the concrete hiccup environment. -/
theorem c5_witness :
    (chiLoop envWriteHiccup 10000 2 0 0 0).1 =
      [Event.fetchCall 0, Event.writeFail, Event.sleepWait,
        Event.fetchCall 0, Event.write 1] ∧
    (chiLoop envWriteHiccup 10000 2 0 0 0).2 = Outcome.done ∧
    List.countP (fetchAt 0) (chiLoop envWriteHiccup 10000 2 0 0 0).1 = 2 :=
  c5_write_failure_reissues_fetch envWriteHiccup 10000 0 0 [recPlain]
    [[("ID", Val.str "1")]] (fun _ _ => rfl) rfl rfl rfl (by decide) (by norm_num)

/-- C6 (amended): a record-level normalization failure (an unparseable date)
aborts the whole page: the exception lands in the iteration-level retry
handler, the entire iteration is retried up to the bound, the process then
exits, and no row of the page — not even the clean ones — is written. -/
theorem c6_bad_row_aborts_page (env : ChiEnv) (year fuel : Nat) (page : List RawRec)
    (hf : ∀ i off, env.fetch i off = Except.ok page)
    (hne : page.isEmpty = false)
    (hcl : cleanPage env.parseDate page = none)
    (hfuel : 11 ≤ fuel) :
    List.countP isWrite (chiYear env year fuel).1 = 0 ∧
    List.countP isFetch (chiYear env year fuel).1 = 11 ∧
    (chiYear env year fuel).2 = Outcome.exited := by
  obtain ⟨h1, h2, h3⟩ :=
    chiLoop_clean_err env 10000 page hf hne hcl fuel 0 0 (resumeOffset env.countResult)
      (by omega) (by omega)
  refine ⟨?_, ?_, h3⟩
  · show List.countP isWrite (Event.countQuery year ::
        (chiLoop env 10000 fuel 0 (resumeOffset env.countResult) 0).1) = 0
    rw [List.countP_cons, h2]
    rfl
  · show List.countP isFetch (Event.countQuery year ::
        (chiLoop env 10000 fuel 0 (resumeOffset env.countResult) 0).1) = 11
    rw [List.countP_cons, h1]
    rfl

/-- C6 (counterexample): a two-record page whose second record has an
unparseable date: zero rows are written for the partition (the clean first
record is not salvaged) and the process exits, contradicting "every other
record of the page is still normalized and written". -/
theorem c6_counterexample_page_aborted :
    List.countP isWrite (chiYear envBadRow 0 11).1 = 0 ∧
    List.countP isFetch (chiYear envBadRow 0 11).1 = 11 ∧
    (chiYear envBadRow 0 11).2 = Outcome.exited := by
  refine ⟨?_, ?_, ?_⟩ <;> decide

/-- C6 (witness): the amended statement applied to the concrete bad-row
environment. -/
theorem c6_witness :
    List.countP isWrite (chiYear envBadRow 2015 11).1 = 0 ∧
    List.countP isFetch (chiYear envBadRow 2015 11).1 = 11 ∧
    (chiYear envBadRow 2015 11).2 = Outcome.exited :=
  c6_bad_row_aborts_page envBadRow 2015 11 [recPlain, recBadDate]
    (fun _ _ => rfl) rfl (by decide) (by norm_num)

/-- C7 (amended): only the local-file variant injects the partition year:
when a chunk has no `data_year` column (after lower-casing), every normalized
row carries `data_year = year`, provided the destination table either does
not exist yet or its schema has a `data_year` column; the REST variant never
injects a year field. -/
theorem c7_nibrs_injects_data_year (tableExists : Bool) (dbCols : List String)
    (year : Nat) (cols : List String) (rows : List (List Val))
    (habs : ¬ ("data_year" ∈ cols.map lowerStr))
    (hdb : tableExists = false ∨ "data_year" ∈ dbCols.map lowerStr) :
    ∀ out ∈ nibrsChunk tableExists dbCols year cols rows,
      ("data_year", Val.intV year) ∈ out := by
  intro out hout
  simp only [nibrsChunk] at hout
  obtain ⟨row, _, rfl⟩ := List.mem_map.mp hout
  rw [if_neg habs]
  have hpair : ("data_year", Val.intV year) ∈
      (cols.map lowerStr).zip row ++ [("data_year", Val.intV year)] :=
    List.mem_append_right _ (List.mem_singleton.mpr rfl)
  cases tableExists with
  | false =>
    rw [if_neg (by simp)]
    exact List.mem_map.mpr ⟨("data_year", Val.intV year), hpair, rfl⟩
  | true =>
    have hdbr : "data_year" ∈ dbCols.map lowerStr := by
      rcases hdb with h | h
      · cases h
      · exact h
    rw [if_pos (by simp)]
    refine List.mem_map.mpr ⟨("data_year", Val.intV year), ?_, rfl⟩
    exact List.mem_filter.mpr ⟨hpair, by simpa using hdbr⟩

/-- C7 (counterexample): the REST normalizer, applied to a record with no
year field, produces a canonical row that still has no year field — nothing
is injected, contradicting "in either source variant ... the normalizer
injects it". -/
theorem c7_counterexample_chicago_no_injection :
    cleanRec pdStrict recNoYear =
      some [("ID", Val.str "5"), ("DATE", Val.date "OK")] ∧
    (([("ID", Val.str "5"), ("DATE", Val.date "OK")] : RawRec).map Prod.fst).contains
      "YEAR" = false := by
  refine ⟨?_, ?_⟩ <;> decide

/-- C7 (witness): the injection theorem at a concrete one-column chunk. -/
theorem c7_witness :
    nibrsChunk false [] 2019 ["incident_id"] [[Val.str "a"]] = [nibrsOutRow] ∧
    ("data_year", Val.intV 2019) ∈ nibrsOutRow := by
  have hA : nibrsChunk false [] 2019 ["incident_id"] [[Val.str "a"]] = [nibrsOutRow] := by
    decide
  refine ⟨hA, ?_⟩
  exact c7_nibrs_injects_data_year false [] 2019 ["incident_id"] [[Val.str "a"]]
    (by decide) (Or.inl rfl) nibrsOutRow (by rw [hA]; exact List.mem_singleton.mpr rfl)

end CrimeIngest
